import Mathlib

/-! Shallow embedding of the `numa` Go library (`numa.go`) and verification of
its specification.  Strings are modelled as `List Char`, Go's `uint64`
arithmetic as `Nat` with explicit reduction modulo `2 ^ 64`, and the file
contents read by the library are passed in as explicit parameters.  The
conversion `uint64 -> float64` performed by the source around `math.Min` is
modelled exactly (round to nearest, ties to even, at 53-bit precision). -/

set_option autoImplicit false

/-- Go `unicode.IsSpace` on a single code point (the white-space code points
recognized by the Go standard library). -/
def isGoSpace (c : Char) : Bool :=
  decide (c.toNat = 32 ∨ c.toNat = 9 ∨ c.toNat = 10 ∨ c.toNat = 11 ∨
    c.toNat = 12 ∨ c.toNat = 13 ∨ c.toNat = 0x85 ∨ c.toNat = 0xA0 ∨
    c.toNat = 0x1680 ∨ (0x2000 ≤ c.toNat ∧ c.toNat ≤ 0x200A) ∨
    c.toNat = 0x2028 ∨ c.toNat = 0x2029 ∨ c.toNat = 0x202F ∨
    c.toNat = 0x205F ∨ c.toNat = 0x3000)

/-- Go `strings.Split(s, sep)` for a one-character separator. -/
def splitOnChar (sep : Char) : List Char → List (List Char)
  | [] => [[]]
  | c :: rest =>
    match splitOnChar sep rest with
    | [] => [[]]
    | h :: t => if c = sep then [] :: h :: t else (c :: h) :: t

/-- Go `strings.TrimSpace`. -/
def goTrimSpace (s : List Char) : List Char :=
  ((s.dropWhile isGoSpace).reverse.dropWhile isGoSpace).reverse

/-- Helper for `goFields`: accumulates the current (reversed) field. -/
def goFieldsAux : List Char → List Char → List (List Char)
  | cur, [] => if cur = [] then [] else [cur.reverse]
  | cur, c :: rest =>
    if isGoSpace c then
      if cur = [] then goFieldsAux [] rest else cur.reverse :: goFieldsAux [] rest
    else goFieldsAux (c :: cur) rest

/-- Go `strings.Fields`: splits around runs of white space, dropping empties. -/
def goFields (s : List Char) : List (List Char) :=
  goFieldsAux [] s

/-- Go `strings.TrimRight(s, "\n")`: removes every trailing newline. -/
def dropTrailingNewlines (s : List Char) : List Char :=
  (s.reverse.dropWhile (fun c => c == '\n')).reverse

/-- Helper for `removeAll`: `skip` counts pattern characters still to drop
after a match was found. -/
def removeAllAux (pat : List Char) : List Char → Nat → List Char
  | [], _ => []
  | _ :: rest, Nat.succ skip => removeAllAux pat rest skip
  | c :: rest, 0 =>
    if pat ≠ [] ∧ pat.isPrefixOf (c :: rest) then removeAllAux pat rest (pat.length - 1)
    else c :: removeAllAux pat rest 0

/-- Go `strings.Replace(s, pat, "", -1)`: removes every (non-overlapping,
left-to-right) occurrence of `pat`.  The source only uses a non-empty `pat`
(`" kB"`); an empty `pat` is treated as matching nowhere. -/
def removeAll (pat s : List Char) : List Char :=
  removeAllAux pat s 0

/-- The numeric value of a non-empty all-digit string, `none` otherwise. -/
def digitsToNat? (s : List Char) : Option Nat :=
  if s = [] then none
  else if s.all (fun c => c.isDigit) then
    some (s.foldl (fun acc c => acc * 10 + (c.toNat - 48)) 0)
  else none

/-- Go `strconv.Atoi` (= `ParseInt(s, 10, 0)` with 64-bit `int`): an optional
single sign followed by at least one digit, with the value required to fit in
a signed 64-bit integer. -/
def goAtoi (s : List Char) : Option Int :=
  match s with
  | [] => none
  | '+' :: rest =>
    match digitsToNat? rest with
    | some n => if n ≤ 9223372036854775807 then some (n : Int) else none
    | none => none
  | '-' :: rest =>
    match digitsToNat? rest with
    | some n => if n ≤ 9223372036854775808 then some (-(n : Int)) else none
    | none => none
  | _ =>
    match digitsToNat? s with
    | some n => if n ≤ 9223372036854775807 then some (n : Int) else none
    | none => none

/-- Go `strconv.ParseUint(s, 10, 64)`: digits only (no sign), value below
`2 ^ 64`. -/
def goParseUint64 (s : List Char) : Option Nat :=
  match digitsToNat? s with
  | some n => if n ≤ 18446744073709551615 then some n else none
  | none => none

/-- Fuel-driven floor base-2 logarithm (kernel-reducible variant of
`Nat.log2`; with `fuel ≥ n` it computes `Nat.log2 n`). -/
def log2Aux : Nat → Nat → Nat
  | 0, _ => 0
  | fuel + 1, n => if 2 ≤ n then log2Aux fuel (n / 2) + 1 else 0

/-- Floor base-2 logarithm. -/
def natLog2 (n : Nat) : Nat :=
  log2Aux n n

/-- Round a natural number to the nearest `float64` value (round to nearest,
ties to even, 53 significant bits).  This is the exact value of the Go
conversion `float64(x)` for `x : uint64`. -/
def f64round (x : Nat) : Nat :=
  if x ≤ 9007199254740992 then x
  else
    let e := natLog2 x - 52
    let q := x / 2 ^ e
    let r := x % 2 ^ e
    let half := 2 ^ (e - 1)
    if r < half then q * 2 ^ e
    else if half < r then (q + 1) * 2 ^ e
    else if q % 2 = 0 then q * 2 ^ e else (q + 1) * 2 ^ e

/-- Go `uint64(math.Min(float64(a), float64(b)))` for `a b : uint64`.  Both
conversions to `float64` round to nearest; `math.Min` then yields the smaller
of the two (integer-valued) results.  At every call site of the source one
argument is at most `2 ^ 63`, so the conversion back to `uint64` is exact. -/
def goMin64 (a b : Nat) : Nat :=
  min (f64round a) (f64round b)

/-- Go `uint64` addition. -/
def add64 (a b : Nat) : Nat :=
  (a + b) % 18446744073709551616

/-- Go `uint64` subtraction (wraps around on underflow). -/
def sub64 (a b : Nat) : Nat :=
  (a % 18446744073709551616 + (18446744073709551616 - b % 18446744073709551616)) %
    18446744073709551616

/-- Decidable equality on `Except`, used to evaluate the parsers on concrete
inputs. -/
instance {ε α : Type} [DecidableEq ε] [DecidableEq α] : DecidableEq (Except ε α) := fun x y =>
  match x, y with
  | .ok a, .ok b =>
    match decEq a b with
    | isTrue h => isTrue (congrArg Except.ok h)
    | isFalse h => isFalse (fun hc => h (Except.ok.inj hc))
  | .error a, .error b =>
    match decEq a b with
    | isTrue h => isTrue (congrArg Except.error h)
    | isFalse h => isFalse (fun hc => h (Except.error.inj hc))
  | .ok _, .error _ => isFalse (fun hc => Except.noConfusion hc)
  | .error _, .ok _ => isFalse (fun hc => Except.noConfusion hc)

/-- The `memInfo` struct of `numa.go`: per-node kernel counters in bytes.
Each field models a Go `uint64` (its value is always below `2 ^ 64` when
produced by this embedding). -/
structure memInfo where
  MemTotal : Nat
  MemFree : Nat
  ActiveFile : Nat
  InactiveFile : Nat
  SReclaimable : Nat
deriving DecidableEq

/-- The `Node` struct of `numa.go`. -/
structure Node where
  ID : Int
  CPU : List Int
  MemAvailable : Nat
  MemFree : Nat
  MemTotal : Nat
deriving DecidableEq

/-- The five field names recognized by `parseMemInfo`. -/
inductive MemKey where
  | memTotal
  | memFree
  | activeFile
  | inactiveFile
  | sReclaimable
deriving DecidableEq

/-- The meminfo field name (as it appears in the source text) of a key. -/
def memKeyName : MemKey → List Char
  | .memTotal => "MemTotal".data
  | .memFree => "MemFree".data
  | .activeFile => "Active(file)".data
  | .inactiveFile => "Inactive(file)".data
  | .sReclaimable => "SReclaimable".data

/-- Read the field of a `memInfo` record selected by a key. -/
def memInfo.get (m : memInfo) : MemKey → Nat
  | .memTotal => m.MemTotal
  | .memFree => m.MemFree
  | .activeFile => m.ActiveFile
  | .inactiveFile => m.InactiveFile
  | .sReclaimable => m.SReclaimable

/-- Write the field of a `memInfo` record selected by a key. -/
def memInfo.set (m : memInfo) : MemKey → Nat → memInfo
  | .memTotal, v => { m with MemTotal := v }
  | .memFree, v => { m with MemFree := v }
  | .activeFile, v => { m with ActiveFile := v }
  | .inactiveFile, v => { m with InactiveFile := v }
  | .sReclaimable, v => { m with SReclaimable := v }

/-- One iteration of the scanner loop of `parseMemInfo` (`numa.go`, lines
84-133): split the line on `":"`, require exactly two parts, extract the third
space-separated token of the trimmed left part as the field name, strip
`" kB"` from the trimmed right part, and update the record on a recognized
field name.  A failing `strconv.ParseUint` on a recognized field aborts with
an error carrying the offending value text. -/
def parseMemInfoLine (m : memInfo) (line : List Char) : Except (List Char) memInfo :=
  match splitOnChar ':' line with
  | [t0, t1] =>
    match splitOnChar ' ' (goTrimSpace t0) with
    | [_, _, key] =>
      let value := removeAll " kB".data (goTrimSpace t1)
      if key = "MemTotal".data then
        match goParseUint64 value with
        | some t => .ok { m with MemTotal := t * 1024 % 18446744073709551616 }
        | none => .error value
      else if key = "MemFree".data then
        match goParseUint64 value with
        | some t => .ok { m with MemFree := t * 1024 % 18446744073709551616 }
        | none => .error value
      else if key = "Active(file)".data then
        match goParseUint64 value with
        | some t => .ok { m with ActiveFile := t * 1024 % 18446744073709551616 }
        | none => .error value
      else if key = "Inactive(file)".data then
        match goParseUint64 value with
        | some t => .ok { m with InactiveFile := t * 1024 % 18446744073709551616 }
        | none => .error value
      else if key = "SReclaimable".data then
        match goParseUint64 value with
        | some t => .ok { m with SReclaimable := t * 1024 % 18446744073709551616 }
        | none => .error value
      else .ok m
    | _ => .ok m
  | _ => .ok m

/-- The scanner loop of `parseMemInfo` over the remaining lines. -/
def parseMemInfoAux (m : memInfo) : List (List Char) → Except (List Char) memInfo
  | [] => .ok m
  | l :: ls =>
    match parseMemInfoLine m l with
    | .ok m2 => parseMemInfoAux m2 ls
    | .error e => .error e

/-- `parseMemInfo` of `numa.go` on the lines of the meminfo file (the record
starts from the zero value of the struct). -/
def parseMemInfoLines (lines : List (List Char)) : Except (List Char) memInfo :=
  parseMemInfoAux ⟨0, 0, 0, 0, 0⟩ lines

/-- The errors `parseCpuList` can produce: `invalid format: %q` with the whole
file content, or a conversion error naming the offending segment. -/
inductive CpuListError where
  | formatError (text : List Char)
  | convertFirst (segment : List Char)
  | convertLast (segment : List Char)
deriving DecidableEq

/-- The loop `for i := first; i <= last; i++` collecting `i`:
the integers from `first` to `last` inclusive (empty for `first > last`). -/
def intRange (first last : Int) : List Int :=
  (List.range (last + 1 - first).toNat).map (fun (k : Nat) => first + (k : Int))

/-- `parseCpuList` of `numa.go` (lines 138-166) on the file content: trim
trailing newlines, split on `"-"`, require exactly two segments, convert both
with `strconv.Atoi`, and build the inclusive range. -/
def parseCpuList (f : List Char) : Except CpuListError (List Int) :=
  match splitOnChar '-' (dropTrailingNewlines f) with
  | [a, b] =>
    match goAtoi a with
    | none => .error (.convertFirst a)
    | some first =>
      match goAtoi b with
      | none => .error (.convertLast b)
      | some last => .ok (intRange first last)
  | _ => .error (.formatError f)

/-- The scanner loop of `getWatermarkLow` (`numa.go`, lines 197-207).  Each
line is split into fields; `fields[0]` is indexed unconditionally, and
`fields[1]` whenever `fields[0]` has prefix `"low"`, so a line without enough
fields panics (modelled as `none`).  A second field that fails
`strconv.ParseUint` contributes zero.  The running sum is a `uint64`. -/
def getWatermarkLowAux (acc : Nat) : List (List Char) → Option Nat
  | [] => some acc
  | l :: ls =>
    match goFields l with
    | [] => none
    | f0 :: rest =>
      if "low".data.isPrefixOf f0 then
        match rest with
        | [] => none
        | f1 :: _ =>
          getWatermarkLowAux ((acc + ((goParseUint64 f1).getD 0)) % 18446744073709551616) ls
      else getWatermarkLowAux acc ls

/-- The page-count sum of `getWatermarkLow` over the zoneinfo lines. -/
def getWatermarkLowPages (lines : List (List Char)) : Option Nat :=
  getWatermarkLowAux 0 lines

/-- `getWatermarkLow` of `numa.go`: the page sum times the host page size, in
`uint64` arithmetic. -/
def getWatermarkLow (lines : List (List Char)) (pagesize : Nat) : Option Nat :=
  (getWatermarkLowPages lines).map
    (fun p => p * (pagesize % 18446744073709551616) % 18446744073709551616)

/-- `calculateAvailableMemory` of `numa.go` (lines 168-185).  The watermark
outcome is passed explicitly: `none` models a failing `getWatermarkLow` (the
fallback sum is returned), `some watermarkLow` the successful read.  All
arithmetic is `uint64`; the final `if memAvailable < 0` of the source can
never fire on `uint64` and therefore does not appear in the result. -/
def calculateAvailableMemory (m : memInfo) (watermark : Option Nat) : Nat :=
  match watermark with
  | none => add64 (add64 (add64 m.MemFree m.SReclaimable) m.ActiveFile) m.InactiveFile
  | some watermarkLow =>
    let memAvailable := sub64 m.MemFree watermarkLow
    let pageCache := add64 m.ActiveFile m.InactiveFile
    let pageCache2 := sub64 pageCache (goMin64 (pageCache / 2) watermarkLow)
    let memAvailable2 := add64 memAvailable pageCache2
    let memAvailable3 :=
      add64 memAvailable2 (sub64 m.SReclaimable (goMin64 (m.SReclaimable / 2) watermarkLow))
    memAvailable3

/-- A directory entry of `/sys/devices/system/node/` together with the
contents of the two per-node files the loop of `GetNodes` reads. -/
structure DirEntry where
  name : List Char
  isDir : Bool
  meminfo : List (List Char)
  cpulist : List Char
deriving DecidableEq

/-- The errors `GetNodes` can return: a failing `strconv.Atoi` on the node ID,
or a wrapped meminfo/cpulist parse error. -/
inductive NodesError where
  | nodeIDError (name : List Char)
  | memInfoError (e : List Char)
  | cpuListError (e : CpuListError)
deriving DecidableEq

/-- Go `strings.TrimPrefix`. -/
def trimPref (pre s : List Char) : List Char :=
  if pre.isPrefixOf s then s.drop pre.length else s

/-- The loop of `GetNodes` (`numa.go`, lines 38-71): skip non-directories and
entries without the `"node"` name prefix, parse the ID suffix, parse the two
per-node files (any failure aborts the whole call with a wrapped error), and
append the assembled `Node`.  The watermark outcome is shared by all nodes. -/
def getNodesAux (wlo : Option Nat) (acc : List Node) : List DirEntry → Except NodesError (List Node)
  | [] => .ok acc
  | e :: rest =>
    if e.isDir = false then getNodesAux wlo acc rest
    else if "node".data.isPrefixOf e.name = false then getNodesAux wlo acc rest
    else
      match goAtoi (trimPref "node".data e.name) with
      | none => .error (.nodeIDError e.name)
      | some nodeID =>
        match parseMemInfoLines e.meminfo with
        | .error me => .error (.memInfoError me)
        | .ok mi =>
          match parseCpuList e.cpulist with
          | .error ce => .error (.cpuListError ce)
          | .ok cpuIDs =>
            getNodesAux wlo
              (acc ++ [{ ID := nodeID, CPU := cpuIDs,
                         MemAvailable := calculateAvailableMemory mi wlo,
                         MemFree := mi.MemFree, MemTotal := mi.MemTotal }]) rest

/-- `GetNodes` of `numa.go` with the directory listing and watermark outcome
passed explicitly. -/
def getNodes (entries : List DirEntry) (wlo : Option Nat) : Except NodesError (List Node) :=
  getNodesAux wlo [] entries

/-- Stated from the specification (section 4.4, steps 2-5) for comparison with
the code: `available := MemFree - watermarkLow` computed in a signed domain,
plus the page cache reduced by `min(pageCache / 2, watermarkLow)`, plus the
reclaimable slab reduced by `min(SReclaimable / 2, watermarkLow)`, the final
result clamped to zero if it would be negative. -/
def specAvailable (m : memInfo) (watermarkLow : Nat) : Nat :=
  let pageCache := m.ActiveFile + m.InactiveFile
  let reducedPageCache := pageCache - min (pageCache / 2) watermarkLow
  let reducedSlab := m.SReclaimable - min (m.SReclaimable / 2) watermarkLow
  (((m.MemFree : Int) - (watermarkLow : Int)) + (reducedPageCache : Int) +
    (reducedSlab : Int)).toNat

/-- The key/value analysis of one meminfo line, as described by the
specification of KeyValueTextParser: the line must split on `":"` into exactly
two parts and the trimmed left part into exactly three space-separated tokens;
the field name is the third token and the value text is the trimmed right part
with `" kB"` removed. -/
def lineKeyValue (l : List Char) : Option (List Char × List Char) :=
  match splitOnChar ':' l with
  | [t0, t1] =>
    match splitOnChar ' ' (goTrimSpace t0) with
    | [_, _, key] => some (key, removeAll " kB".data (goTrimSpace t1))
    | _ => none
  | _ => none

/-- The kilobyte value that a line contributes to a given recognized field:
`some v` when the line is well formed, names this field, and its value text
parses as an unsigned integer `v`. -/
def lineKB (k : MemKey) (l : List Char) : Option Nat :=
  match lineKeyValue l with
  | some (key, value) => if key = memKeyName k then goParseUint64 value else none
  | none => none

/-- A line of valid memory-info text: either skippable (bad shape or an
unrecognized field name) or a recognized field whose value parses as an
unsigned integer small enough that the `* 1024` byte conversion does not
overflow `uint64`. -/
def lineValid (l : List Char) : Bool :=
  match lineKeyValue l with
  | none => true
  | some (key, value) =>
    if key = "MemTotal".data ∨ key = "MemFree".data ∨ key = "Active(file)".data ∨
        key = "Inactive(file)".data ∨ key = "SReclaimable".data then
      match goParseUint64 value with
      | some t => decide (t * 1024 < 18446744073709551616)
      | none => false
    else true

/-- Whether a line names the given recognized field (regardless of whether its
value parses). -/
def lineTargets (k : MemKey) (l : List Char) : Bool :=
  match lineKeyValue l with
  | some (key, _) => key = memKeyName k
  | none => false

/-- The last line of the text contributing to a recognized field wins (the
parser overwrites earlier assignments). -/
def lastKB (k : MemKey) : List (List Char) → Option Nat
  | [] => none
  | l :: ls =>
    match lastKB k ls with
    | some v => some v
    | none => lineKB k l

/-- A zone-info line that the watermark scan can process without panicking: it
has at least one whitespace-separated field, and at least two when the first
field begins with `"low"`. -/
def zoneLineOk (l : List Char) : Bool :=
  match goFields l with
  | [] => false
  | f0 :: rest => !("low".data.isPrefixOf f0) || !rest.isEmpty

/-- Stated from the specification of WatermarkAggregator: the page count one
line contributes to the watermark sum — its second field parsed as an
unsigned integer if the first field begins with `"low"`, with lines that fail
to parse numerically contributing zero. -/
def lineContribution (l : List Char) : Nat :=
  match goFields l with
  | f0 :: f1 :: _ => if "low".data.isPrefixOf f0 then (goParseUint64 f1).getD 0 else 0
  | _ => 0

/-- The error returned by `GetNodes` wraps the actual failing step of some
directory entry: a node-ID conversion failure, a meminfo parse error, or a
cpulist parse error. -/
def errWraps (err : NodesError) (entries : List DirEntry) : Prop :=
  (∃ nm, err = .nodeIDError nm ∧
    ∃ d ∈ entries, d.name = nm ∧ goAtoi (trimPref "node".data d.name) = none) ∨
  (∃ me, err = .memInfoError me ∧ ∃ d ∈ entries, parseMemInfoLines d.meminfo = .error me) ∨
  (∃ ce, err = .cpuListError ce ∧ ∃ d ∈ entries, parseCpuList d.cpulist = .error ce)

/-- Values up to `2 ^ 53` convert to `float64` exactly. -/
theorem f64round_id (x : Nat) (h : x ≤ 9007199254740992) : f64round x = x := by
  unfold f64round
  rw [if_pos h]

/-- Closed form of the normal path of `calculateAvailableMemory` when all
counts are small enough for the `float64` conversions to be exact and the raw
estimate does not underflow. -/
theorem calcAvailable_closed (mt mf af ifl sr wl : Nat)
    (hmf : mf ≤ 9007199254740992) (haf : af ≤ 9007199254740992)
    (hif : ifl ≤ 9007199254740992) (hsr : sr ≤ 9007199254740992)
    (hwl : wl ≤ 9007199254740992)
    (hraw : wl ≤ mf + ((af + ifl) - min ((af + ifl) / 2) wl) + (sr - min (sr / 2) wl)) :
    calculateAvailableMemory ⟨mt, mf, af, ifl, sr⟩ (some wl)
      = mf + ((af + ifl) - min ((af + ifl) / 2) wl) + (sr - min (sr / 2) wl) - wl := by
  simp only [calculateAvailableMemory, sub64, add64, goMin64]
  rw [f64round_id, f64round_id, f64round_id]
  · have e1 : mf % 18446744073709551616 = mf := Nat.mod_eq_of_lt (by omega)
    have e2 : wl % 18446744073709551616 = wl := Nat.mod_eq_of_lt (by omega)
    have e3 : (af + ifl) % 18446744073709551616 = af + ifl := Nat.mod_eq_of_lt (by omega)
    have e4 : sr % 18446744073709551616 = sr := Nat.mod_eq_of_lt (by omega)
    simp only [e1, e2, e3, e4]
    have ha : min ((af + ifl) / 2) wl ≤ af + ifl :=
      le_trans (min_le_left _ _) (Nat.div_le_self _ _)
    have ha2 : min ((af + ifl) / 2) wl ≤ wl := min_le_right _ _
    have hb : min (sr / 2) wl ≤ sr := le_trans (min_le_left _ _) (Nat.div_le_self _ _)
    have hb2 : min (sr / 2) wl ≤ wl := min_le_right _ _
    have ea : min ((af + ifl) / 2) wl % 18446744073709551616 = min ((af + ifl) / 2) wl :=
      Nat.mod_eq_of_lt (by omega)
    have eb : min (sr / 2) wl % 18446744073709551616 = min (sr / 2) wl :=
      Nat.mod_eq_of_lt (by omega)
    simp only [ea, eb]
    set a := min ((af + ifl) / 2) wl
    set b := min (sr / 2) wl
    omega
  · omega
  · omega
  · omega

/-- C1: the claim says a raw estimate that would go negative is clamped to
zero on the normal path, but the spec's intent is contradicted by the code: on
`MemFree = 0` with `watermarkLow = 1024` the `uint64` subtraction wraps and
`calculateAvailableMemory` returns `2 ^ 64 - 1024`, an underflowed large
value; the source's final `if memAvailable < 0` clamp can never fire on
`uint64`. -/
theorem calculateAvailableMemory_underflow_bug :
    calculateAvailableMemory ⟨0, 0, 0, 0, 0⟩ (some 1024) = 18446744073709550592 ∧
    calculateAvailableMemory ⟨0, 0, 0, 0, 0⟩ (some 1024) ≠ 0 := by
  decide

/-- C2 counterexample: on the all-zero record with `watermarkLow = 512` the
claimed formula (clamped at the end per step 5) is `0`, but
`calculateAvailableMemory` returns the wrapped value `2 ^ 64 - 512`, so the
claim as stated is false. -/
theorem calcAvailable_spec_formula_cx :
    specAvailable ⟨0, 0, 0, 0, 0⟩ 512 = 0 ∧
    calculateAvailableMemory ⟨0, 0, 0, 0, 0⟩ (some 512) ≠ specAvailable ⟨0, 0, 0, 0, 0⟩ 512 := by
  decide

/-- C2 (amended): when the watermark source yields `watermarkLow`, all counts
are at most `2 ^ 53` (so the `float64` min round-trip is exact and no `uint64`
addition overflows) and the raw estimate is non-negative,
`calculateAvailableMemory` returns exactly
`MemFree - watermarkLow + (pageCache - min(pageCache / 2, watermarkLow)) +
(SReclaimable - min(SReclaimable / 2, watermarkLow))` with
`pageCache = ActiveFile + InactiveFile` and integer-domain halving. -/
theorem calcAvailable_matches_spec (m : memInfo) (wl : Nat)
    (hmf : m.MemFree ≤ 9007199254740992) (haf : m.ActiveFile ≤ 9007199254740992)
    (hif : m.InactiveFile ≤ 9007199254740992) (hsr : m.SReclaimable ≤ 9007199254740992)
    (hwl : wl ≤ 9007199254740992)
    (hraw : wl ≤ m.MemFree +
      ((m.ActiveFile + m.InactiveFile) - min ((m.ActiveFile + m.InactiveFile) / 2) wl) +
      (m.SReclaimable - min (m.SReclaimable / 2) wl)) :
    calculateAvailableMemory m (some wl) = specAvailable m wl := by
  obtain ⟨mt, mf, af, ifl, sr⟩ := m
  dsimp only at hmf haf hif hsr hraw ⊢
  rw [calcAvailable_closed mt mf af ifl sr wl hmf haf hif hsr hwl hraw]
  simp only [specAvailable]
  omega

/-- Witness for C2 on a concrete record. -/
theorem calcAvailable_matches_spec_witness :
    calculateAvailableMemory ⟨0, 1000, 100, 100, 50⟩ (some 60) =
      specAvailable ⟨0, 1000, 100, 100, 50⟩ 60 :=
  calcAvailable_matches_spec ⟨0, 1000, 100, 100, 50⟩ 60 (by decide) (by decide) (by decide)
    (by decide) (by decide) (by decide)

/-- C3: when watermark aggregation fails, `calculateAvailableMemory` returns
exactly `MemFree + SReclaimable + ActiveFile + InactiveFile` (stated for sums
that fit in `uint64`, as any realistic byte counts do), with no watermark
correction applied. -/
theorem calcAvailable_fallback_sum (m : memInfo)
    (h : m.MemFree + m.SReclaimable + m.ActiveFile + m.InactiveFile < 18446744073709551616) :
    calculateAvailableMemory m none =
      m.MemFree + m.SReclaimable + m.ActiveFile + m.InactiveFile := by
  simp only [calculateAvailableMemory, add64]
  omega

/-- Witness for C3 on a concrete record. -/
theorem calcAvailable_fallback_sum_witness :
    calculateAvailableMemory ⟨9, 1, 2, 3, 4⟩ none = 1 + 4 + 2 + 3 :=
  calcAvailable_fallback_sum ⟨9, 1, 2, 3, 4⟩ (by decide)

/-- C4 counterexample: two records agreeing on all fields except `MemFree`
(`0` versus `2048`), same watermark outcome `some 1024`; the record with the
larger `MemFree` yields the strictly smaller estimate (`1024` versus the
wrapped `2 ^ 64 - 1024`), so the claimed monotonicity is false. -/
theorem calcAvailable_not_monotone_cx :
    (0 : Nat) < 2048 ∧
    calculateAvailableMemory ⟨0, 2048, 0, 0, 0⟩ (some 1024) <
      calculateAvailableMemory ⟨0, 0, 0, 0, 0⟩ (some 1024) := by
  decide

/-- C4 (amended): `calculateAvailableMemory` is monotonic in `MemFree` for
records agreeing on all other fields and the same watermark outcome, provided
the counts are at most `2 ^ 53` and the watermark (when the source is
readable) does not exceed the smaller `MemFree`, so that the `uint64`
subtraction `MemFree - watermarkLow` does not wrap. -/
theorem calcAvailable_monotone (mt af ifl sr f1 f2 : Nat) (wlo : Option Nat)
    (haf : af ≤ 9007199254740992) (hif : ifl ≤ 9007199254740992)
    (hsr : sr ≤ 9007199254740992) (h12 : f1 ≤ f2) (h2 : f2 ≤ 9007199254740992)
    (hwl : ∀ wl, wlo = some wl → wl ≤ 9007199254740992 ∧ wl ≤ f1) :
    calculateAvailableMemory ⟨mt, f1, af, ifl, sr⟩ wlo ≤
      calculateAvailableMemory ⟨mt, f2, af, ifl, sr⟩ wlo := by
  cases wlo with
  | none =>
    simp only [calculateAvailableMemory, add64]
    omega
  | some wl =>
    obtain ⟨hwl1, hwl2⟩ := hwl wl rfl
    rw [calcAvailable_closed mt f1 af ifl sr wl (le_trans h12 h2) haf hif hsr hwl1 (by omega),
      calcAvailable_closed mt f2 af ifl sr wl h2 haf hif hsr hwl1 (by omega)]
    omega

/-- Witness for C4 on concrete records. -/
theorem calcAvailable_monotone_witness :
    calculateAvailableMemory ⟨0, 1, 0, 0, 0⟩ (some 1) ≤
      calculateAvailableMemory ⟨0, 2, 0, 0, 0⟩ (some 1) :=
  calcAvailable_monotone 0 0 0 0 1 2 (some 1) (by decide) (by decide) (by decide) (by decide)
    (by decide) (fun wl h => by injection h with h2; subst h2; exact ⟨by decide, by decide⟩)

/-- C5 counterexample: the claim says no input line (including empty or
whitespace-only lines) aborts the watermark scan, but an empty line (and a
whitespace-only one) makes `fields[0]` panic with an index out of range,
modelled as `none`: the scan aborts. -/
theorem watermark_scan_empty_line_cx :
    getWatermarkLowPages ["".data] = none ∧ getWatermarkLowPages [" ".data] = none ∧
    getWatermarkLowPages ["low".data] = none := by
  decide

/-- The watermark scan, from any running sum, processes lines that have enough
fields and returns the reduced total. -/
theorem getWatermarkLowAux_sum (lines : List (List Char)) :
    ∀ acc : Nat, acc < 18446744073709551616 → (∀ l ∈ lines, zoneLineOk l = true) →
      getWatermarkLowAux acc lines =
        some ((acc + (lines.map lineContribution).sum) % 18446744073709551616) := by
  induction lines with
  | nil =>
    intro acc hacc _
    simp only [getWatermarkLowAux, List.map_nil, List.sum_nil, Nat.add_zero]
    rw [Nat.mod_eq_of_lt hacc]
  | cons l ls ih =>
    intro acc hacc h
    have hl : zoneLineOk l = true := h l (List.mem_cons_self l ls)
    have hls : ∀ x ∈ ls, zoneLineOk x = true := fun x hx => h x (List.mem_cons_of_mem l hx)
    rcases hgf : goFields l with _ | ⟨f0, rest⟩
    · rw [zoneLineOk, hgf] at hl
      simp at hl
    · cases hb : "low".data.isPrefixOf f0 with
      | false =>
        rw [getWatermarkLowAux, hgf]
        dsimp only
        rw [hb]
        simp only [Bool.false_eq_true, if_false]
        rw [ih acc hacc hls]
        rcases rest with _ | ⟨f1, r2⟩ <;>
          simp [lineContribution, hgf, hb]
      | true =>
        rw [zoneLineOk, hgf] at hl
        dsimp only at hl
        rw [hb] at hl
        simp only [Bool.not_true, Bool.false_or] at hl
        rcases rest with _ | ⟨f1, r2⟩
        · simp at hl
        · rw [getWatermarkLowAux, hgf]
          dsimp only
          rw [hb]
          rw [if_pos rfl]
          rw [ih _ (Nat.mod_lt _ (by omega)) hls]
          have hc : lineContribution l = (goParseUint64 f1).getD 0 := by
            simp [lineContribution, hgf, hb]
          rw [List.map_cons, List.sum_cons, hc]
          congr 1
          omega

/-- C5 (amended): the watermark scan processes every line that has at least
one whitespace-separated field — and at least two when the first begins with
`"low"` — without failing: `"low"` lines contribute their second field parsed
as an unsigned integer, lines failing to parse numerically contribute zero;
an empty or whitespace-only line, or a lone `"low"` token, panics instead. -/
theorem watermark_scan_processes_fielded_lines (lines : List (List Char))
    (h : ∀ l ∈ lines, zoneLineOk l = true) :
    getWatermarkLowPages lines =
      some ((lines.map lineContribution).sum % 18446744073709551616) := by
  have hs := getWatermarkLowAux_sum lines 0 (by omega) h
  simpa [getWatermarkLowPages] using hs

/-- Witness for C5: a numeric-failure line contributes zero and the scan
completes. -/
theorem watermark_scan_processes_fielded_lines_witness :
    getWatermarkLowPages ["low abc".data, "min 9".data, "low 5".data] =
      some ((["low abc".data, "min 9".data, "low 5".data].map lineContribution).sum %
        18446744073709551616) :=
  watermark_scan_processes_fielded_lines _ (by decide)

/-- C6: on input whose newline-trimmed text splits on `"-"` into exactly two
segments parsing as signed integers `first` and `last`, `parseCpuList`
succeeds with the inclusive integer sequence from `first` to `last` in
ascending order: length `last - first + 1` with no gaps when `first ≤ last`, a
single element when `first = last`, and the empty sequence (no error) when
`first > last`. -/
theorem parseCpuList_range_spec (s a b : List Char) (first last : Int)
    (hsplit : splitOnChar '-' (dropTrailingNewlines s) = [a, b])
    (ha : goAtoi a = some first) (hb : goAtoi b = some last) :
    parseCpuList s = .ok (intRange first last) ∧
    (first ≤ last → ((intRange first last).length : Int) = last - first + 1) ∧
    List.Pairwise (· < ·) (intRange first last) ∧
    (∀ x : Int, x ∈ intRange first last ↔ first ≤ x ∧ x ≤ last) ∧
    (first = last → intRange first last = [first]) ∧
    (last < first → intRange first last = []) := by
  refine ⟨?_, ?_, ?_, ?_, ?_, ?_⟩
  · simp [parseCpuList, hsplit, ha, hb]
  · intro h
    simp only [intRange, List.length_map, List.length_range]
    omega
  · simp only [intRange]
    rw [List.pairwise_map]
    exact List.Pairwise.imp (fun h => by omega) (List.pairwise_lt_range _)
  · intro x
    simp only [intRange, List.mem_map, List.mem_range]
    constructor
    · rintro ⟨k, hk, rfl⟩
      omega
    · intro hx
      exact ⟨(x - first).toNat, by omega, by omega⟩
  · intro h
    subst h
    simp only [intRange]
    rw [show (first + 1 - first).toNat = 1 by omega]
    simp [List.range_succ]
  · intro h
    simp only [intRange]
    rw [show (last + 1 - first).toNat = 0 by omega, List.range_zero]
    rfl

/-- Witness for C6 on the content `"0-3\n"`. -/
theorem parseCpuList_range_spec_witness :
    parseCpuList "0-3\n".data = .ok (intRange 0 3) :=
  (parseCpuList_range_spec "0-3\n".data "0".data "3".data 0 3 (by decide) (by decide)
    (by decide)).1

/-- C7: `parseCpuList` fails with a format error citing the original text
whenever the newline-trimmed input does not split on `"-"` into exactly two
segments, with a conversion error naming the first segment when it does not
parse as a signed integer, and with a conversion error naming the second
segment when only that one fails; these are the only error cases. -/
theorem parseCpuList_error_spec (s : List Char) :
    ((splitOnChar '-' (dropTrailingNewlines s)).length ≠ 2 →
      parseCpuList s = .error (.formatError s)) ∧
    (∀ a b, splitOnChar '-' (dropTrailingNewlines s) = [a, b] → goAtoi a = none →
      parseCpuList s = .error (.convertFirst a)) ∧
    (∀ a b first, splitOnChar '-' (dropTrailingNewlines s) = [a, b] →
      goAtoi a = some first → goAtoi b = none →
      parseCpuList s = .error (.convertLast b)) ∧
    (∀ e, parseCpuList s = .error e →
      (splitOnChar '-' (dropTrailingNewlines s)).length ≠ 2 ∨
      ∃ a b, splitOnChar '-' (dropTrailingNewlines s) = [a, b] ∧
        (goAtoi a = none ∨ goAtoi b = none)) := by
  refine ⟨?_, ?_, ?_, ?_⟩
  · intro h
    rcases hs : splitOnChar '-' (dropTrailingNewlines s) with _ | ⟨x, _ | ⟨y, _ | ⟨z, t⟩⟩⟩
    · simp [parseCpuList, hs]
    · simp [parseCpuList, hs]
    · rw [hs] at h
      simp at h
    · simp [parseCpuList, hs]
  · intro a b hs hn
    simp [parseCpuList, hs, hn]
  · intro a b first hs hsome hn
    simp [parseCpuList, hs, hsome, hn]
  · intro e he
    rcases hs : splitOnChar '-' (dropTrailingNewlines s) with _ | ⟨x, _ | ⟨y, _ | ⟨z, t⟩⟩⟩
    · left
      simp only [List.length_nil]
      omega
    · left
      simp only [List.length_cons, List.length_nil]
      omega
    · right
      refine ⟨x, y, rfl, ?_⟩
      rcases hx : goAtoi x with _ | fx
      · exact Or.inl rfl
      · rcases hy : goAtoi y with _ | fy
        · exact Or.inr rfl
        · exfalso
          simp [parseCpuList, hs, hx, hy] at he
    · left
      simp only [List.length_cons, List.length_nil]
      omega

/-- Witness for C7 on the content `"a-5"`. -/
theorem parseCpuList_error_spec_witness :
    parseCpuList "a-5".data = .error (.convertFirst "a".data) :=
  (parseCpuList_error_spec "a-5".data).2.1 "a".data "5".data (by decide) (by decide)

/-- The five recognized field names are pairwise distinct. -/
theorem memKeyName_inj (k1 k2 : MemKey) (h : memKeyName k1 = memKeyName k2) : k1 = k2 := by
  cases k1 <;> cases k2 <;> revert h <;> decide

/-- Every `memKeyName` satisfies the recognized-name disjunction of
`lineValid`. -/
theorem memKeyName_recognized (k : MemKey) :
    memKeyName k = "MemTotal".data ∨ memKeyName k = "MemFree".data ∨
    memKeyName k = "Active(file)".data ∨ memKeyName k = "Inactive(file)".data ∨
    memKeyName k = "SReclaimable".data := by
  cases k <;> simp [memKeyName]

/-- Reading back a field just set. -/
theorem memInfo.get_set_self (m : memInfo) (k : MemKey) (v : Nat) : (m.set k v).get k = v := by
  cases k <;> rfl

/-- Setting one field leaves the others unchanged. -/
theorem memInfo.get_set_other (m : memInfo) (k k2 : MemKey) (v : Nat) (h : k2 ≠ k) :
    (m.set k v).get k2 = m.get k2 := by
  cases k <;> cases k2 <;> first | rfl | exact absurd rfl h

/-- A line with no key/value shape is skipped by the parser and contributes to
no field. -/
theorem parseMemInfoLine_skip (m : memInfo) (l : List Char) (h : lineKeyValue l = none) :
    parseMemInfoLine m l = .ok m ∧ ∀ k, lineKB k l = none := by
  refine ⟨?_, fun k => by simp only [lineKB, h]⟩
  rcases h1 : splitOnChar ':' l with _ | ⟨t0, _ | ⟨t1, _ | ⟨t2, ts⟩⟩⟩
  · simp [parseMemInfoLine, h1]
  · simp [parseMemInfoLine, h1]
  · rcases h2 : splitOnChar ' ' (goTrimSpace t0) with _ | ⟨a, _ | ⟨b, _ | ⟨c, _ | ⟨d, es⟩⟩⟩⟩
    · simp [parseMemInfoLine, h1, h2]
    · simp [parseMemInfoLine, h1, h2]
    · simp [parseMemInfoLine, h1, h2]
    · simp [lineKeyValue, h1, h2] at h
    · simp [parseMemInfoLine, h1, h2]
  · simp [parseMemInfoLine, h1]

/-- A line with an unrecognized field name is skipped by the parser and
contributes to no field. -/
theorem parseMemInfoLine_unrecognized (m : memInfo) (l : List Char) (key value : List Char)
    (hkv : lineKeyValue l = some (key, value)) (hk : ∀ k : MemKey, key ≠ memKeyName k) :
    parseMemInfoLine m l = .ok m ∧ ∀ k, lineKB k l = none := by
  constructor
  · rcases h1 : splitOnChar ':' l with _ | ⟨t0, _ | ⟨t1, _ | ⟨t2, ts⟩⟩⟩
    · simp [lineKeyValue, h1] at hkv
    · simp [lineKeyValue, h1] at hkv
    · rcases h2 : splitOnChar ' ' (goTrimSpace t0) with _ | ⟨a, _ | ⟨b, _ | ⟨c, _ | ⟨d, es⟩⟩⟩⟩
      · simp [lineKeyValue, h1, h2] at hkv
      · simp [lineKeyValue, h1, h2] at hkv
      · simp [lineKeyValue, h1, h2] at hkv
      · simp only [lineKeyValue, h1, h2, Option.some.injEq, Prod.mk.injEq] at hkv
        obtain ⟨hc, hv⟩ := hkv
        subst hc
        simp only [parseMemInfoLine, h1, h2]
        split_ifs with hi1 hi2 hi3 hi4 hi5
        · exact absurd hi1 (hk .memTotal)
        · exact absurd hi2 (hk .memFree)
        · exact absurd hi3 (hk .activeFile)
        · exact absurd hi4 (hk .inactiveFile)
        · exact absurd hi5 (hk .sReclaimable)
        · rfl
      · simp [lineKeyValue, h1, h2] at hkv
    · simp [lineKeyValue, h1] at hkv
  · intro k
    simp only [lineKB, hkv]
    rw [if_neg (hk k)]

/-- A line naming a recognized field whose value parses updates exactly that
field of the record to `1024` times the parsed value (`uint64` multiply). -/
theorem parseMemInfoLine_recognized (m : memInfo) (l : List Char) (k : MemKey)
    (value : List Char) (t : Nat)
    (hkv : lineKeyValue l = some (memKeyName k, value)) (ht : goParseUint64 value = some t) :
    parseMemInfoLine m l = .ok (memInfo.set m k (t * 1024 % 18446744073709551616)) ∧
    lineKB k l = some t ∧ ∀ k2, k2 ≠ k → lineKB k2 l = none := by
  refine ⟨?_, ?_, ?_⟩
  · rcases h1 : splitOnChar ':' l with _ | ⟨t0, _ | ⟨t1, _ | ⟨t2, ts⟩⟩⟩
    · simp [lineKeyValue, h1] at hkv
    · simp [lineKeyValue, h1] at hkv
    · rcases h2 : splitOnChar ' ' (goTrimSpace t0) with _ | ⟨a, _ | ⟨b, _ | ⟨c, _ | ⟨d, es⟩⟩⟩⟩
      · simp [lineKeyValue, h1, h2] at hkv
      · simp [lineKeyValue, h1, h2] at hkv
      · simp [lineKeyValue, h1, h2] at hkv
      · simp only [lineKeyValue, h1, h2, Option.some.injEq, Prod.mk.injEq] at hkv
        obtain ⟨hc, hv⟩ := hkv
        subst hv
        subst hc
        cases k with
        | memTotal =>
          simp only [parseMemInfoLine, h1, h2]
          split_ifs with hi1 hi2 hi3 hi4 hi5
          · rw [ht]
            rfl
          · exact absurd (by decide) hi1
          · exact absurd (by decide) hi1
          · exact absurd (by decide) hi1
          · exact absurd (by decide) hi1
          · exact absurd (by decide) hi1
        | memFree =>
          simp only [parseMemInfoLine, h1, h2]
          split_ifs with hi1 hi2 hi3 hi4 hi5
          · exact absurd hi1 (by decide)
          · rw [ht]
            rfl
          · exact absurd (by decide) hi2
          · exact absurd (by decide) hi2
          · exact absurd (by decide) hi2
          · exact absurd (by decide) hi2
        | activeFile =>
          simp only [parseMemInfoLine, h1, h2]
          split_ifs with hi1 hi2 hi3 hi4 hi5
          · exact absurd hi1 (by decide)
          · exact absurd hi2 (by decide)
          · rw [ht]
            rfl
          · exact absurd (by decide) hi3
          · exact absurd (by decide) hi3
          · exact absurd (by decide) hi3
        | inactiveFile =>
          simp only [parseMemInfoLine, h1, h2]
          split_ifs with hi1 hi2 hi3 hi4 hi5
          · exact absurd hi1 (by decide)
          · exact absurd hi2 (by decide)
          · exact absurd hi3 (by decide)
          · rw [ht]
            rfl
          · exact absurd (by decide) hi4
          · exact absurd (by decide) hi4
        | sReclaimable =>
          simp only [parseMemInfoLine, h1, h2]
          split_ifs with hi1 hi2 hi3 hi4 hi5
          · exact absurd hi1 (by decide)
          · exact absurd hi2 (by decide)
          · exact absurd hi3 (by decide)
          · exact absurd hi4 (by decide)
          · rw [ht]
            rfl
          · exact absurd (by decide) hi5
      · simp [lineKeyValue, h1, h2] at hkv
    · simp [lineKeyValue, h1] at hkv
  · simp [lineKB, hkv, ht]
  · intro k2 hk2
    simp only [lineKB, hkv]
    rw [if_neg (fun hc => hk2 (memKeyName_inj k k2 hc).symm)]

/-- A line carrying a recognized field name in a valid text has a value that
parses, small enough that the byte conversion does not overflow. -/
theorem lineValid_parse (l : List Char) (k0 : MemKey) (value : List Char)
    (hkv : lineKeyValue l = some (memKeyName k0, value)) (hl : lineValid l = true) :
    ∃ t, goParseUint64 value = some t ∧ t * 1024 < 18446744073709551616 := by
  rcases hvp : goParseUint64 value with _ | t
  · exfalso
    cases k0 <;> simp [lineValid, hkv, memKeyName, hvp] at hl
  · refine ⟨t, rfl, ?_⟩
    cases k0 <;> simp [lineValid, hkv, memKeyName, hvp] at hl <;> exact hl

/-- The value contributed by a line of a valid text stays below the overflow
bound. -/
theorem lineKB_valid_bound (l : List Char) (k : MemKey) (v : Nat)
    (hval : lineValid l = true) (hkb : lineKB k l = some v) :
    v * 1024 < 18446744073709551616 := by
  rcases hkv : lineKeyValue l with _ | ⟨key, value⟩
  · simp only [lineKB, hkv] at hkb
    exact Option.noConfusion hkb
  · simp only [lineKB, hkv] at hkb
    by_cases hkey : key = memKeyName k
    · subst hkey
      rw [if_pos rfl] at hkb
      obtain ⟨t, ht, hb⟩ := lineValid_parse l k value hkv hval
      rw [ht] at hkb
      obtain rfl : t = v := Option.some.inj hkb
      exact hb
    · rw [if_neg hkey] at hkb
      exact Option.noConfusion hkb

/-- If no line contributes to a field, the last contribution is `none`. -/
theorem lastKB_filterMap_nil (k : MemKey) (ls : List (List Char))
    (h : ls.filterMap (lineKB k) = []) : lastKB k ls = none := by
  induction ls with
  | nil => rfl
  | cons l ls ih =>
    rw [List.filterMap_cons] at h
    rcases hkb : lineKB k l with _ | w
    · rw [hkb] at h
      dsimp only at h
      simp only [lastKB, ih h, hkb]
    · rw [hkb] at h
      dsimp only at h
      exact absurd h (by simp)

/-- If exactly one line contributes to a field, the last contribution is its
value. -/
theorem lastKB_filterMap_single (k : MemKey) (ls : List (List Char)) (v : Nat)
    (h : ls.filterMap (lineKB k) = [v]) : lastKB k ls = some v := by
  induction ls with
  | nil => simp at h
  | cons l ls ih =>
    rw [List.filterMap_cons] at h
    rcases hkb : lineKB k l with _ | w
    · rw [hkb] at h
      dsimp only at h
      simp only [lastKB, ih h]
    · rw [hkb] at h
      dsimp only at h
      injection h with ha hb
      subst ha
      simp only [lastKB, lastKB_filterMap_nil k ls hb, hkb]

/-- Folding the parser over valid lines succeeds, and each field holds the
byte value of the last line contributing to it (or the starting value). -/
theorem parseMemInfoAux_valid (lines : List (List Char)) :
    ∀ m0 : memInfo, (∀ l ∈ lines, lineValid l = true) →
      ∃ m, parseMemInfoAux m0 lines = .ok m ∧
        ∀ k : MemKey, m.get k =
          (match lastKB k lines with
           | some v => v * 1024 % 18446744073709551616
           | none => m0.get k) := by
  induction lines with
  | nil =>
    intro m0 _
    exact ⟨m0, rfl, fun k => by simp [lastKB]⟩
  | cons l ls ih =>
    intro m0 h
    have hl := h l (List.mem_cons_self l ls)
    have hls : ∀ x ∈ ls, lineValid x = true := fun x hx => h x (List.mem_cons_of_mem l hx)
    have step : ∀ mnext : memInfo, parseMemInfoLine m0 l = .ok mnext →
        ∃ m, parseMemInfoAux m0 (l :: ls) = .ok m ∧
          ∀ k : MemKey, m.get k =
            (match lastKB k ls with
             | some v => v * 1024 % 18446744073709551616
             | none => mnext.get k) := by
      intro mnext hline
      obtain ⟨m, hm, hget⟩ := ih mnext hls
      refine ⟨m, ?_, hget⟩
      simp only [parseMemInfoAux]
      rw [hline]
      exact hm
    rcases hkv : lineKeyValue l with _ | ⟨key, value⟩
    · obtain ⟨hline, hkbn⟩ := parseMemInfoLine_skip m0 l hkv
      obtain ⟨m, hm, hget⟩ := step m0 hline
      refine ⟨m, hm, fun k => ?_⟩
      have hg := hget k
      rcases hlast : lastKB k ls with _ | v
      · rw [hlast] at hg
        dsimp only at hg
        rw [hg]
        simp only [lastKB, hlast, hkbn k]
      · rw [hlast] at hg
        dsimp only at hg
        rw [hg]
        simp only [lastKB, hlast]
    · by_cases hk : ∃ k0 : MemKey, key = memKeyName k0
      · obtain ⟨k0, rfl⟩ := hk
        obtain ⟨t, ht, _⟩ := lineValid_parse l k0 value hkv hl
        obtain ⟨hline, hkbk, hkbo⟩ := parseMemInfoLine_recognized m0 l k0 value t hkv ht
        obtain ⟨m, hm, hget⟩ := step _ hline
        refine ⟨m, hm, fun k => ?_⟩
        have hg := hget k
        rcases hlast : lastKB k ls with _ | v
        · rw [hlast] at hg
          dsimp only at hg
          by_cases hkk : k = k0
          · subst hkk
            rw [hg, memInfo.get_set_self]
            simp only [lastKB, hlast, hkbk]
          · rw [hg, memInfo.get_set_other m0 k0 k _ hkk]
            simp only [lastKB, hlast, hkbo k hkk]
        · rw [hlast] at hg
          dsimp only at hg
          rw [hg]
          simp only [lastKB, hlast]
      · push_neg at hk
        obtain ⟨hline, hkbn⟩ := parseMemInfoLine_unrecognized m0 l key value hkv hk
        obtain ⟨m, hm, hget⟩ := step m0 hline
        refine ⟨m, hm, fun k => ?_⟩
        have hg := hget k
        rcases hlast : lastKB k ls with _ | v
        · rw [hlast] at hg
          dsimp only at hg
          rw [hg]
          simp only [lastKB, hlast, hkbn k]
        · rw [hlast] at hg
          dsimp only at hg
          rw [hg]
          simp only [lastKB, hlast]

/-- C8: for every valid memory-info text — each line either skippable (bad
colon split, bad token count, or unrecognized field name) or a recognized
field with a parseable, non-overflowing value — the parser succeeds, and every
recognized field contributed by exactly one line equals exactly `1024` times
the kilobyte value in the source text, while the malformed lines are skipped
without error. -/
theorem parseMemInfo_fields_spec (lines : List (List Char))
    (h : ∀ l ∈ lines, lineValid l = true) :
    ∃ m, parseMemInfoLines lines = .ok m ∧
      ∀ (k : MemKey) (v : Nat), lines.filterMap (lineKB k) = [v] → m.get k = 1024 * v := by
  obtain ⟨m, hm, hget⟩ := parseMemInfoAux_valid lines ⟨0, 0, 0, 0, 0⟩ h
  refine ⟨m, hm, ?_⟩
  intro k v hfm
  have hlast := lastKB_filterMap_single k lines v hfm
  have hmem : ∃ l ∈ lines, lineKB k l = some v := by
    have hv : v ∈ lines.filterMap (lineKB k) := by
      rw [hfm]
      exact List.mem_singleton.mpr rfl
    simpa [List.mem_filterMap] using hv
  obtain ⟨l0, hl0, hkb0⟩ := hmem
  have hbound := lineKB_valid_bound l0 k v (h l0 hl0) hkb0
  have hg := hget k
  rw [hlast] at hg
  dsimp only at hg
  rw [hg, Nat.mod_eq_of_lt hbound, Nat.mul_comm]

/-- Witness for C8 on a small valid text with one well-formed line per present
field, one malformed line and one unrecognized field name. -/
theorem parseMemInfo_fields_spec_witness :
    ∃ m, parseMemInfoLines ["Node 0 MemTotal: 100 kB".data, "fluff".data,
        "Node 0 MemFree: 50 kB".data, "Node 0 Bogus: 7 kB".data] = .ok m ∧
      ∀ (k : MemKey) (v : Nat),
        (["Node 0 MemTotal: 100 kB".data, "fluff".data, "Node 0 MemFree: 50 kB".data,
          "Node 0 Bogus: 7 kB".data].filterMap (lineKB k)) = [v] → m.get k = 1024 * v :=
  parseMemInfo_fields_spec _ (by decide)

/-- A line naming a recognized field whose value fails to parse aborts the
parser with an error carrying the value text. -/
theorem parseMemInfoLine_recognized_err (m : memInfo) (l : List Char) (k : MemKey)
    (value : List Char)
    (hkv : lineKeyValue l = some (memKeyName k, value)) (hvp : goParseUint64 value = none) :
    parseMemInfoLine m l = .error value := by
  rcases h1 : splitOnChar ':' l with _ | ⟨t0, _ | ⟨t1, _ | ⟨t2, ts⟩⟩⟩
  · simp [lineKeyValue, h1] at hkv
  · simp [lineKeyValue, h1] at hkv
  · rcases h2 : splitOnChar ' ' (goTrimSpace t0) with _ | ⟨a, _ | ⟨b, _ | ⟨c, _ | ⟨d, es⟩⟩⟩⟩
    · simp [lineKeyValue, h1, h2] at hkv
    · simp [lineKeyValue, h1, h2] at hkv
    · simp [lineKeyValue, h1, h2] at hkv
    · simp only [lineKeyValue, h1, h2, Option.some.injEq, Prod.mk.injEq] at hkv
      obtain ⟨hc, hv⟩ := hkv
      subst hv
      subst hc
      cases k with
      | memTotal =>
        simp only [parseMemInfoLine, h1, h2]
        split_ifs with hi1 hi2 hi3 hi4 hi5
        · rw [hvp]
        · exact absurd (by decide) hi1
        · exact absurd (by decide) hi1
        · exact absurd (by decide) hi1
        · exact absurd (by decide) hi1
        · exact absurd (by decide) hi1
      | memFree =>
        simp only [parseMemInfoLine, h1, h2]
        split_ifs with hi1 hi2 hi3 hi4 hi5
        · exact absurd hi1 (by decide)
        · rw [hvp]
        · exact absurd (by decide) hi2
        · exact absurd (by decide) hi2
        · exact absurd (by decide) hi2
        · exact absurd (by decide) hi2
      | activeFile =>
        simp only [parseMemInfoLine, h1, h2]
        split_ifs with hi1 hi2 hi3 hi4 hi5
        · exact absurd hi1 (by decide)
        · exact absurd hi2 (by decide)
        · rw [hvp]
        · exact absurd (by decide) hi3
        · exact absurd (by decide) hi3
        · exact absurd (by decide) hi3
      | inactiveFile =>
        simp only [parseMemInfoLine, h1, h2]
        split_ifs with hi1 hi2 hi3 hi4 hi5
        · exact absurd hi1 (by decide)
        · exact absurd hi2 (by decide)
        · exact absurd hi3 (by decide)
        · rw [hvp]
        · exact absurd (by decide) hi4
        · exact absurd (by decide) hi4
      | sReclaimable =>
        simp only [parseMemInfoLine, h1, h2]
        split_ifs with hi1 hi2 hi3 hi4 hi5
        · exact absurd hi1 (by decide)
        · exact absurd hi2 (by decide)
        · exact absurd hi3 (by decide)
        · exact absurd hi4 (by decide)
        · rw [hvp]
        · exact absurd (by decide) hi5
    · simp [lineKeyValue, h1, h2] at hkv
  · simp [lineKeyValue, h1] at hkv

/-- A successfully parsed line that does not name field `k` leaves field `k`
unchanged. -/
theorem parseMemInfoLine_preserve (m0 : memInfo) (l : List Char) (k : MemKey) (m1 : memInfo)
    (ht : lineTargets k l = false) (hok : parseMemInfoLine m0 l = .ok m1) :
    m1.get k = m0.get k := by
  rcases hkv : lineKeyValue l with _ | ⟨key, value⟩
  · obtain ⟨hline, _⟩ := parseMemInfoLine_skip m0 l hkv
    rw [hline] at hok
    obtain rfl : m0 = m1 := Except.ok.inj hok
    rfl
  · have hkey : key ≠ memKeyName k := by simpa [lineTargets, hkv] using ht
    by_cases hk : ∃ k0 : MemKey, key = memKeyName k0
    · obtain ⟨k0, rfl⟩ := hk
      have hkk : k ≠ k0 := fun hc => hkey (by rw [hc])
      rcases hvp : goParseUint64 value with _ | t
      · rw [parseMemInfoLine_recognized_err m0 l k0 value hkv hvp] at hok
        exact Except.noConfusion hok
      · obtain ⟨hline, _, _⟩ := parseMemInfoLine_recognized m0 l k0 value t hkv hvp
        rw [hline] at hok
        obtain rfl : memInfo.set m0 k0 (t * 1024 % 18446744073709551616) = m1 :=
          Except.ok.inj hok
        exact memInfo.get_set_other m0 k0 k _ hkk
    · push_neg at hk
      obtain ⟨hline, _⟩ := parseMemInfoLine_unrecognized m0 l key value hkv hk
      rw [hline] at hok
      obtain rfl : m0 = m1 := Except.ok.inj hok
      rfl

/-- C10 counterexample: the claim says the parser succeeds on every text in
which a recognized field (here `MemTotal`) appears on no well-formed line, but
a text whose only line names a different recognized field with an unparseable
value makes the parser fail, so the claim as stated is false. -/
theorem parseMemInfo_missing_field_cx :
    (∀ l ∈ ["Node 0 MemFree: xyz".data], lineTargets MemKey.memTotal l = false) ∧
    parseMemInfoLines ["Node 0 MemFree: xyz".data] = .error "xyz".data := by
  decide

/-- C10 (amended): whenever the parser succeeds on a memory-info text in which
a recognized field name appears on no well-formed line, the corresponding
record field is zero — a missing field is never itself an error and defaults
to zero bytes. -/
theorem parseMemInfo_missing_field_zero (lines : List (List Char)) (k : MemKey) (m : memInfo)
    (hok : parseMemInfoLines lines = .ok m)
    (habsent : ∀ l ∈ lines, lineTargets k l = false) :
    m.get k = 0 := by
  have aux : ∀ (ls : List (List Char)) (m0 mr : memInfo), parseMemInfoAux m0 ls = .ok mr →
      (∀ l ∈ ls, lineTargets k l = false) → mr.get k = m0.get k := by
    intro ls
    induction ls with
    | nil =>
      intro m0 mr hok2 _
      obtain rfl : m0 = mr := Except.ok.inj hok2
      rfl
    | cons l ls ih =>
      intro m0 mr hok2 habs
      simp only [parseMemInfoAux] at hok2
      rcases hline : parseMemInfoLine m0 l with e | m1
      · rw [hline] at hok2
        exact Except.noConfusion hok2
      · rw [hline] at hok2
        dsimp only at hok2
        have h1 := parseMemInfoLine_preserve m0 l k m1 (habs l (List.mem_cons_self l ls)) hline
        have h2 := ih m1 mr hok2 (fun x hx => habs x (List.mem_cons_of_mem l hx))
        rw [h2, h1]
  have h0 := aux lines ⟨0, 0, 0, 0, 0⟩ m hok habsent
  rw [h0]
  cases k <;> rfl

/-- Witness for C10: a text with only a `MemFree` line leaves `MemTotal` at
zero. -/
theorem parseMemInfo_missing_field_zero_witness :
    memInfo.get ⟨0, 51200, 0, 0, 0⟩ MemKey.memTotal = 0 :=
  parseMemInfo_missing_field_zero ["Node 0 MemFree: 50 kB".data] .memTotal ⟨0, 51200, 0, 0, 0⟩
    (by decide) (by decide)

/-- An error already wrapped over the tail is wrapped over the whole list. -/
theorem errWraps_cons (d : DirEntry) (rest : List DirEntry) (err : NodesError)
    (h : errWraps err rest) : errWraps err (d :: rest) := by
  rcases h with ⟨nm, he, d2, hd2, hn, hid⟩ | ⟨me, he, d2, hd2, hmi⟩ | ⟨ce, he, d2, hd2, hcl⟩
  · exact Or.inl ⟨nm, he, d2, List.mem_cons_of_mem d hd2, hn, hid⟩
  · exact Or.inr (Or.inl ⟨me, he, d2, List.mem_cons_of_mem d hd2, hmi⟩)
  · exact Or.inr (Or.inr ⟨ce, he, d2, List.mem_cons_of_mem d hd2, hcl⟩)

/-- If the node loop returns a collection, every processed entry (directory
with the `"node"` name prefix) had a convertible ID and both of its per-node
parses succeeded. -/
theorem getNodesAux_ok_sound (entries : List DirEntry) :
    ∀ (wlo : Option Nat) (acc : List Node) (ns : List Node),
      getNodesAux wlo acc entries = .ok ns →
      ∀ e ∈ entries, e.isDir = true → "node".data.isPrefixOf e.name = true →
        (∃ i, goAtoi (trimPref "node".data e.name) = some i) ∧
        (∃ mi, parseMemInfoLines e.meminfo = .ok mi) ∧
        (∃ c, parseCpuList e.cpulist = .ok c) := by
  induction entries with
  | nil =>
    intro _ _ _ _ e he
    exact absurd he (List.not_mem_nil e)
  | cons d rest ih =>
    intro wlo acc ns hok e he hdir hpre
    simp only [getNodesAux] at hok
    rcases List.mem_cons.mp he with rfl | hrest
    · rw [if_neg (by simp [hdir])] at hok
      rw [if_neg (by simp [hpre])] at hok
      rcases hid : goAtoi (trimPref "node".data e.name) with _ | i
      · rw [hid] at hok
        exact Except.noConfusion hok
      · rw [hid] at hok
        dsimp only at hok
        rcases hmi : parseMemInfoLines e.meminfo with me | mi
        · rw [hmi] at hok
          exact Except.noConfusion hok
        · rw [hmi] at hok
          dsimp only at hok
          rcases hcl : parseCpuList e.cpulist with ce | cl
          · rw [hcl] at hok
            exact Except.noConfusion hok
          · exact ⟨⟨i, rfl⟩, ⟨mi, rfl⟩, ⟨cl, rfl⟩⟩
    · by_cases hd : d.isDir = false
      · rw [if_pos hd] at hok
        exact ih wlo acc ns hok e hrest hdir hpre
      · rw [if_neg hd] at hok
        by_cases hp : "node".data.isPrefixOf d.name = false
        · rw [if_pos hp] at hok
          exact ih wlo acc ns hok e hrest hdir hpre
        · rw [if_neg hp] at hok
          rcases hid : goAtoi (trimPref "node".data d.name) with _ | i
          · rw [hid] at hok
            exact Except.noConfusion hok
          · rw [hid] at hok
            dsimp only at hok
            rcases hmi : parseMemInfoLines d.meminfo with me | mi
            · rw [hmi] at hok
              exact Except.noConfusion hok
            · rw [hmi] at hok
              dsimp only at hok
              rcases hcl : parseCpuList d.cpulist with ce | cl
              · rw [hcl] at hok
                exact Except.noConfusion hok
              · rw [hcl] at hok
                dsimp only at hok
                exact ih wlo _ ns hok e hrest hdir hpre

/-- Every error returned by the node loop wraps the actual failing step of
some entry of the list. -/
theorem getNodesAux_error_wraps (entries : List DirEntry) :
    ∀ (wlo : Option Nat) (acc : List Node) (err : NodesError),
      getNodesAux wlo acc entries = .error err → errWraps err entries := by
  induction entries with
  | nil =>
    intro wlo acc err h
    exact Except.noConfusion h
  | cons d rest ih =>
    intro wlo acc err h
    simp only [getNodesAux] at h
    by_cases hd : d.isDir = false
    · rw [if_pos hd] at h
      exact errWraps_cons d rest err (ih wlo acc err h)
    · rw [if_neg hd] at h
      by_cases hp : "node".data.isPrefixOf d.name = false
      · rw [if_pos hp] at h
        exact errWraps_cons d rest err (ih wlo acc err h)
      · rw [if_neg hp] at h
        rcases hid : goAtoi (trimPref "node".data d.name) with _ | i
        · rw [hid] at h
          dsimp only at h
          obtain rfl : NodesError.nodeIDError d.name = err := Except.error.inj h
          exact Or.inl ⟨d.name, rfl, d, List.mem_cons_self d rest, rfl, hid⟩
        · rw [hid] at h
          dsimp only at h
          rcases hmi : parseMemInfoLines d.meminfo with me | mi
          · rw [hmi] at h
            dsimp only at h
            obtain rfl : NodesError.memInfoError me = err := Except.error.inj h
            exact Or.inr (Or.inl ⟨me, rfl, d, List.mem_cons_self d rest, hmi⟩)
          · rw [hmi] at h
            dsimp only at h
            rcases hcl : parseCpuList d.cpulist with ce | cl
            · rw [hcl] at h
              dsimp only at h
              obtain rfl : NodesError.cpuListError ce = err := Except.error.inj h
              exact Or.inr (Or.inr ⟨ce, rfl, d, List.mem_cons_self d rest, hcl⟩)
            · rw [hcl] at h
              dsimp only at h
              exact errWraps_cons d rest err (ih wlo _ err h)

/-- C9: if memory-info or CPU-list parsing fails for any processed node entry,
`getNodes` returns no node collection at all — it returns an error, and that
error wraps the failing sub-parse (or an earlier entry's failure). -/
theorem getNodes_aborts_on_subparse_error (entries : List DirEntry) (wlo : Option Nat)
    (e : DirEntry) (he : e ∈ entries) (hdir : e.isDir = true)
    (hpre : "node".data.isPrefixOf e.name = true)
    (hfail : (∃ me, parseMemInfoLines e.meminfo = .error me) ∨
      (∃ ce, parseCpuList e.cpulist = .error ce)) :
    (∀ ns, getNodes entries wlo ≠ .ok ns) ∧
    ∃ err, getNodes entries wlo = .error err ∧ errWraps err entries := by
  have hnok : ∀ ns, getNodes entries wlo ≠ .ok ns := by
    intro ns hok
    obtain ⟨_, ⟨mi, hmi⟩, ⟨cl, hcl⟩⟩ := getNodesAux_ok_sound entries wlo [] ns hok e he hdir hpre
    rcases hfail with ⟨me, hme⟩ | ⟨ce, hce⟩
    · rw [hmi] at hme
      exact Except.noConfusion hme
    · rw [hcl] at hce
      exact Except.noConfusion hce
  refine ⟨hnok, ?_⟩
  rcases hres : getNodes entries wlo with err | ns
  · exact ⟨err, rfl, getNodesAux_error_wraps entries wlo [] err hres⟩
  · exact absurd hres (hnok ns)

/-- Witness for C9: a single node directory whose `cpulist` reads `"badrange"`
fails the whole call. -/
theorem getNodes_aborts_on_subparse_error_witness :
    (∀ ns, getNodes [⟨"node0".data, true, [], "badrange".data⟩] none ≠ .ok ns) ∧
    ∃ err, getNodes [⟨"node0".data, true, [], "badrange".data⟩] none = .error err ∧
      errWraps err [⟨"node0".data, true, [], "badrange".data⟩] :=
  getNodes_aborts_on_subparse_error [⟨"node0".data, true, [], "badrange".data⟩] none
    ⟨"node0".data, true, [], "badrange".data⟩ (List.mem_singleton.mpr rfl) (by decide)
    (by decide) (Or.inr ⟨CpuListError.formatError "badrange".data, by decide⟩)
